import Mathlib

/-!
Verification of `synapse/rest/client/v2_alpha/_base.py`.

The four functions of that module are shallowly embedded here:

* `interactive_auth_handler` / `catch_incomplete_interactive_auth` — the
  deferred-based decorator; a handler outcome is `Except (HandlerError β ε) (Nat × β)`,
  with a failed deferred carrying either the `InteractiveAuthIncompleteError`
  (payload of type `β`) or any other exception (of type `ε`).
* `check_3pid_allowed` — the allow-list scan; Python's `re.match` is an external
  library call and is passed in as an oracle `reMatch`, returning `Except ε Bool`
  so a malformed pattern can raise a matching-engine failure as in Python.
* `set_timeline_upper_limit` — nested-dict clamp; Python dicts become
  association lists, Python runtime errors (KeyError / TypeError /
  AttributeError) become `Except Unit`.
* `client_v2_patterns` — path-pattern expansion; a compiled regex object is
  represented by its pattern string, Python's `str.replace` and `"%d"`
  formatting are modelled by `pyReplace` and `pyFormatD`.
-/

/-! ## Interactive-Auth Response Adapter -/

/-- A failure carried by a failed deferred: either the authentication
subsystem's `InteractiveAuthIncompleteError`, whose `result` field holds the
partial-authentication-state payload, or any other exception kind. -/
inductive HandlerError (β : Type u) (ε : Type v) where
  | interactiveAuthIncompleteError (result : β)
  | otherError (e : ε)
deriving DecidableEq

/-- `_catch_incomplete_interactive_auth`: an errback that traps
`InteractiveAuthIncompleteError` (re-raising every other failure, as
`f.trap` does) and returns `(401, f.value.result)`. -/
def catch_incomplete_interactive_auth (f : HandlerError β ε) :
    Except (HandlerError β ε) (Nat × β) :=
  match f with
  | .interactiveAuthIncompleteError result => .ok (401, result)
  | .otherError e => .error (.otherError e)

/-- `Deferred.addErrback`: a successful result passes through untouched, a
failure is handed to the errback, which may recover or re-fail. -/
def addErrback (res : Except η α) (errback : η → Except η α) : Except η α :=
  match res with
  | .ok a => .ok a
  | .error f => errback f

/-- `interactive_auth_handler`: wraps an `on_POST`-style handler (a function
producing a deferred `(errcode, body)` response) with the interactive-auth
errback.  `defer.maybeDeferred` folds a synchronous raise into a failed
deferred, so a handler is any function into `Except`. -/
def interactive_auth_handler (orig : α → Except (HandlerError β ε) (Nat × β)) :
    α → Except (HandlerError β ε) (Nat × β) :=
  fun args => addErrback (orig args) catch_incomplete_interactive_auth

/-! ## 3PID Policy Check -/

/-- One entry of `registrations_require_3pid`: a `{medium, pattern}` record. -/
structure Constraint where
  medium : String
  pattern : String
deriving DecidableEq

/-- The slice of `hs.config` that `check_3pid_allowed` reads.  `none` models
an absent (`None`) allow-list, `some []` an empty one; both are falsy. -/
structure Config where
  registrations_require_3pid : Option (List Constraint)

/-- The homeserver object, of which only `.config` is consulted. -/
structure HomeServer where
  config : Config

/-- The `for constraint in hs.config.registrations_require_3pid` loop body:
checks `medium == constraint['medium'] and re.match(constraint['pattern'],
address)`; the Python `and` short-circuits, so the pattern is only handed to
the matching engine when the medium is equal.  On a match, `allow = True;
break`; after an exhausted loop the initial `allow = False` is returned. -/
def check_3pid_loop (reMatch : String → String → Except ε Bool)
    (medium address : String) : List Constraint → Except ε Bool
  | [] => .ok false
  | constraint :: rest =>
    if medium = constraint.medium then
      match reMatch constraint.pattern address with
      | .error e => .error e
      | .ok true => .ok true
      | .ok false => check_3pid_loop reMatch medium address rest
    else
      check_3pid_loop reMatch medium address rest

/-- `check_3pid_allowed`: `if hs.config.registrations_require_3pid:` is the
Python truthiness test, so an absent or empty allow-list takes the `else`
branch (`allow = True`); a non-empty one is scanned by `check_3pid_loop`. -/
def check_3pid_allowed (reMatch : String → String → Except ε Bool)
    (hs : HomeServer) (medium address : String) : Except ε Bool :=
  match hs.config.registrations_require_3pid with
  | none => .ok true
  | some [] => .ok true
  | some (c :: rest) => check_3pid_loop reMatch medium address (c :: rest)

/-! ## Timeline Limit Clamp

Python values reaching `set_timeline_upper_limit` are JSON-like: integers or
dicts (the constructors the function can actually distinguish).  A dict is an
insertion-ordered association list, as in CPython.  Runtime errors
(`AttributeError` from `.get` on a non-dict, `TypeError` from `in`/`min` on a
non-dict/non-int, `KeyError` from missing subscripts) are collapsed into
`Except Unit`. -/

/-- A JSON-like Python value: an integer or a dict. -/
inductive JVal where
  | int (n : Int)
  | dict (entries : List (String × JVal))

/-- The entry list of a Python dict. -/
abbrev Entries := List (String × JVal)

/-- Key lookup in a dict, first (unique, in CPython) occurrence. -/
def dictGet? : Entries → String → Option JVal
  | [], _ => none
  | (k', v) :: rest, k => if k' = k then some v else dictGet? rest k

/-- `d[k] = v`: replaces the value at an existing key in place (keeping its
position, as CPython does), appends a fresh entry otherwise. -/
def dictSet : Entries → String → JVal → Entries
  | [], k, v => [(k, v)]
  | (k', v') :: rest, k, v =>
    if k' = k then (k', v) :: rest else (k', v') :: dictSet rest k v

/-- `d.get(k, dflt)` on an actual dict. -/
def pyDictGet (d : Entries) (k : String) (dflt : JVal) : JVal :=
  (dictGet? d k).getD dflt

/-- `v.get(k, dflt)` on an arbitrary value: an `AttributeError` when `v` is
not a dict. -/
def pyGetMethod (v : JVal) (k : String) (dflt : JVal) : Except Unit JVal :=
  match v with
  | .dict d => .ok (pyDictGet d k dflt)
  | .int _ => .error ()

/-- `k in v`: dict-key membership; a `TypeError` when `v` is not a dict. -/
def pyContains (k : String) (v : JVal) : Except Unit Bool :=
  match v with
  | .dict d => .ok (dictGet? d k).isSome
  | .int _ => .error ()

/-- `v[k]`: a `KeyError` when the key is missing, a `TypeError` when `v` is
not a dict. -/
def pySubscript (v : JVal) (k : String) : Except Unit JVal :=
  match v with
  | .dict d =>
    match dictGet? d k with
    | some x => .ok x
    | none => .error ()
  | .int _ => .error ()

/-- `v[k] = x` on an arbitrary value (a `TypeError` when `v` is not a dict);
in-place mutation becomes returning the updated value. -/
def pyAssign (v : JVal) (k : String) (x : JVal) : Except Unit JVal :=
  match v with
  | .dict d => .ok (.dict (dictSet d k x))
  | .int _ => .error ()

/-- `min(a, b)` on Python values: defined on two integers, a `TypeError`
otherwise. -/
def pyMin (a b : JVal) : Except Unit JVal :=
  match a, b with
  | .int m, .int n => .ok (.int (min m n))
  | _, _ => .error ()

/-- `set_timeline_upper_limit(filter_json, filter_timeline_limit)`: an early
return when the limit is negative; then
`timeline = filter_json.get('room', {}).get('timeline', {})`, and under
`if 'limit' in timeline:` the assignment
`filter_json['room']['timeline']["limit"] = min(filter_json['room']['timeline']['limit'], filter_timeline_limit)`,
whose nested in-place mutation becomes rebuilding the enclosing dicts. -/
def set_timeline_upper_limit (filter_json : Entries) (filter_timeline_limit : Int) :
    Except Unit Entries :=
  if filter_timeline_limit < 0 then
    .ok filter_json
  else do
    let timeline ← pyGetMethod (pyDictGet filter_json "room" (.dict []))
        "timeline" (.dict [])
    let hasLimit ← pyContains "limit" timeline
    if hasLimit then do
      let room ← pySubscript (.dict filter_json) "room"
      let tl ← pySubscript room "timeline"
      let oldLimit ← pySubscript tl "limit"
      let newLimit ← pyMin oldLimit (.int filter_timeline_limit)
      let tl' ← pyAssign tl "limit" newLimit
      let room' ← pyAssign room "timeline" tl'
      let fj' ← pyAssign (.dict filter_json) "room" room'
      match fj' with
      | .dict d => .ok d
      | .int _ => .error ()
    else
      .ok filter_json

/-! ## Path-Pattern Expander -/

/-- Modelled from the spec: the base prefix constant `CLIENT_V2_ALPHA_PREFIX`
is imported from `synapse.api.urls`, a module of this repository that is not
under src; the spec describes it as "a single base prefix constant" for the
alpha generation of the client API, whose alpha segment is `"/v2_alpha"`. -/
def CLIENT_V2_ALPHA_PREFIX : String := "/_matrix/client/v2_alpha"

/-- Decimal digits of `n`, most significant first, via fuel-structural
recursion (`fuel ≥ n` suffices); empty for `n = 0`. -/
def decDigitsGo : Nat → Nat → List Char
  | 0, _ => []
  | fuel + 1, n =>
    if n = 0 then [] else decDigitsGo fuel (n / 10) ++ [Nat.digitChar (n % 10)]

/-- Python's `"%d" % n` decimal formatting of a natural number. -/
def pyFormatD (n : Nat) : String :=
  if n = 0 then "0" else String.mk (decDigitsGo n n)

/-- Reads a digit string back, for the injectivity of `pyFormatD`. -/
def decOfDigits (cs : List Char) : Nat :=
  cs.foldl (fun acc c => acc * 10 + (c.toNat - 48)) 0

/-- Python's `str.replace(pat, rep)` for a non-empty `pat`: replaces every
non-overlapping occurrence, scanning left to right; fuel-structural
(`fuel ≥ length` suffices, each step consumes at least one character). -/
def pyReplaceGo (pat rep : List Char) : Nat → List Char → List Char
  | _, [] => []
  | 0, s => s
  | fuel + 1, c :: rest =>
    if pat.isPrefixOf (c :: rest) then
      rep ++ pyReplaceGo pat rep fuel ((c :: rest).drop pat.length)
    else
      c :: pyReplaceGo pat rep fuel rest

/-- Python's `s.replace(pat, rep)` for a non-empty `pat`. -/
def pyReplace (s pat rep : String) : String :=
  String.mk (pyReplaceGo pat.data rep.data s.data.length s.data)

/-- The local `unstable_prefix` of `client_v2_patterns`:
`CLIENT_V2_ALPHA_PREFIX.replace("/v2_alpha", "/unstable")`. -/
def unstable_prefix : String :=
  pyReplace CLIENT_V2_ALPHA_PREFIX "/v2_alpha" "/unstable"

/-- The local `new_prefix` of `client_v2_patterns` for one release:
`CLIENT_V2_ALPHA_PREFIX.replace("/v2_alpha", "/r%d" % release)`. -/
def release_prefix (release : Nat) : String :=
  pyReplace CLIENT_V2_ALPHA_PREFIX "/v2_alpha" ("/r" ++ pyFormatD release)

/-- `client_v2_patterns(path_regex, releases, v2_alpha, unstable)`: builds the
`patterns` list by appending the alpha matcher, then the unstable matcher,
then one matcher per release in the given order.  A compiled regex
(`re.compile(p)`) is represented by its pattern string `p`. -/
def client_v2_patterns (path_regex : String) (releases : List Nat)
    (v2_alpha : Bool) (unstable : Bool) : List String :=
  let patterns : List String := []
  let patterns :=
    if v2_alpha then patterns ++ ["^" ++ CLIENT_V2_ALPHA_PREFIX ++ path_regex]
    else patterns
  let patterns :=
    if unstable then patterns ++ ["^" ++ unstable_prefix ++ path_regex]
    else patterns
  releases.foldl
    (fun ps release => ps ++ ["^" ++ release_prefix release ++ path_regex])
    patterns

/-! ## Theorems -/

/-- C1: for every wrapped handler, the adapted handler resolves an
`InteractiveAuthIncompleteError` carrying payload `P` to exactly
`(401, P)`, passes a normal `(status, body)` completion through unchanged,
and propagates every other failure kind unmodified. -/
theorem interactive_auth_handler_adapts
    (orig : α → Except (HandlerError β ε) (Nat × β)) (a : α) :
    (∀ p, orig a = .error (.interactiveAuthIncompleteError p) →
      interactive_auth_handler orig a = .ok (401, p)) ∧
    (∀ s b, orig a = .ok (s, b) →
      interactive_auth_handler orig a = .ok (s, b)) ∧
    (∀ e, orig a = .error (.otherError e) →
      interactive_auth_handler orig a = .error (.otherError e)) := by
  refine ⟨fun p h => ?_, fun s b h => ?_, fun e h => ?_⟩ <;>
    simp [interactive_auth_handler, addErrback, h,
      catch_incomplete_interactive_auth]

/-- C1 witness: the three cases of the adapter at concrete handlers. -/
theorem interactive_auth_handler_adapts_witness :
    interactive_auth_handler
        (fun _ : Unit =>
          (Except.error (.interactiveAuthIncompleteError [("session", "abc")]) :
            Except (HandlerError (List (String × String)) Nat) (Nat × List (String × String))))
        () = .ok (401, [("session", "abc")]) ∧
    interactive_auth_handler
        (fun _ : Unit =>
          (Except.ok (200, [("ok", "true")]) :
            Except (HandlerError (List (String × String)) Nat) (Nat × List (String × String))))
        () = .ok (200, [("ok", "true")]) ∧
    interactive_auth_handler
        (fun _ : Unit =>
          (Except.error (.otherError 5) :
            Except (HandlerError (List (String × String)) Nat) (Nat × List (String × String))))
        () = .error (.otherError 5) :=
  ⟨(interactive_auth_handler_adapts _ ()).1 _ rfl,
   (interactive_auth_handler_adapts _ ()).2.1 _ _ rfl,
   (interactive_auth_handler_adapts _ ()).2.2 _ rfl⟩

/-- A matcher that never raises: the loop returns `.ok true` exactly when
some constraint has the queried medium and a matching pattern. -/
lemma check_3pid_loop_ok_true_iff (f : String → String → Bool) (m a : String)
    (L : List Constraint) :
    check_3pid_loop (fun p s => (Except.ok (f p s) : Except ε Bool)) m a L =
      .ok true ↔ ∃ c ∈ L, c.medium = m ∧ f c.pattern a = true := by
  induction L with
  | nil => simp [check_3pid_loop]
  | cons c rest ih =>
    by_cases hm : m = c.medium
    · by_cases hf : f c.pattern a
      · simp [check_3pid_loop, hm, hf]
      · simp only [check_3pid_loop, if_pos hm, hf, ih]
        constructor
        · rintro ⟨c', hc', hprop⟩; exact ⟨c', List.mem_cons_of_mem _ hc', hprop⟩
        · rintro ⟨c', hc', hmed, hpat⟩
          rcases List.mem_cons.1 hc' with h | h
          · subst h; exact absurd hpat (by simp [hf])
          · exact ⟨c', h, hmed, hpat⟩
    · simp only [check_3pid_loop, if_neg hm, ih]
      constructor
      · rintro ⟨c', hc', hprop⟩; exact ⟨c', List.mem_cons_of_mem _ hc', hprop⟩
      · rintro ⟨c', hc', hmed, hpat⟩
        rcases List.mem_cons.1 hc' with h | h
        · subst h; exact absurd hmed.symm hm
        · exact ⟨c', h, hmed, hpat⟩

/-- With a total matcher, a prefix in which no constraint matches is skipped
by the loop. -/
lemma check_3pid_loop_append_no_match (f : String → String → Bool)
    (m a : String) (L₁ X : List Constraint)
    (h : ∀ c ∈ L₁, ¬(c.medium = m ∧ f c.pattern a = true)) :
    check_3pid_loop (fun p s => (Except.ok (f p s) : Except ε Bool)) m a
        (L₁ ++ X) =
      check_3pid_loop (fun p s => (Except.ok (f p s) : Except ε Bool)) m a X := by
  induction L₁ with
  | nil => rfl
  | cons c rest ih =>
    have hc := h c (List.mem_cons_self _ _)
    have hrest : ∀ c' ∈ rest, ¬(c'.medium = m ∧ f c'.pattern a = true) :=
      fun c' hc' => h c' (List.mem_cons_of_mem _ hc')
    by_cases hm : m = c.medium
    · subst hm
      have hf : f c.pattern a = false := by
        rcases Bool.eq_false_or_eq_true (f c.pattern a) with h' | h'
        · exact absurd ⟨rfl, h'⟩ hc
        · exact h'
      simp [check_3pid_loop, hf, ih hrest]
    · simp [check_3pid_loop, hm, ih hrest]

/-- The loop consults a constraint's pattern only under an equal medium, so
two matchers agreeing on the patterns of equal-medium constraints drive the
loop to the same outcome. -/
lemma check_3pid_loop_congr (r₁ r₂ : String → String → Except ε Bool)
    (m a : String) (L : List Constraint)
    (h : ∀ c ∈ L, c.medium = m → r₁ c.pattern a = r₂ c.pattern a) :
    check_3pid_loop r₁ m a L = check_3pid_loop r₂ m a L := by
  induction L with
  | nil => rfl
  | cons c rest ih =>
    have hrest : ∀ c' ∈ rest, c'.medium = m → r₁ c'.pattern a = r₂ c'.pattern a :=
      fun c' hc' => h c' (List.mem_cons_of_mem _ hc')
    by_cases hm : m = c.medium
    · subst hm
      have hpat := h c (List.mem_cons_self _ _) rfl
      simp only [check_3pid_loop, if_pos rfl, hpat, ih hrest]
    · simp [check_3pid_loop, hm, ih hrest]

/-- When every consulted pattern evaluates without a matching-engine failure,
the loop terminates without one. -/
lemma check_3pid_loop_total (r : String → String → Except ε Bool)
    (m a : String) (L : List Constraint)
    (h : ∀ c ∈ L, c.medium = m → ∃ b, r c.pattern a = .ok b) :
    ∃ b, check_3pid_loop r m a L = .ok b := by
  induction L with
  | nil => exact ⟨false, rfl⟩
  | cons c rest ih =>
    have hrest : ∀ c' ∈ rest, c'.medium = m → ∃ b, r c'.pattern a = .ok b :=
      fun c' hc' => h c' (List.mem_cons_of_mem _ hc')
    by_cases hm : m = c.medium
    · subst hm
      obtain ⟨b, hb⟩ := h c (List.mem_cons_self _ _) rfl
      cases b with
      | true => exact ⟨true, by simp [check_3pid_loop, hb]⟩
      | false =>
        obtain ⟨b', hb'⟩ := ih hrest
        exact ⟨b', by simp [check_3pid_loop, hb, hb']⟩
    · obtain ⟨b', hb'⟩ := ih hrest
      exact ⟨b', by simp [check_3pid_loop, hm, hb']⟩

/-- A non-empty allow-list is handed to the scanning loop. -/
lemma check_3pid_allowed_of_ne_nil (r : String → String → Except ε Bool)
    (L : List Constraint) (hL : L ≠ []) (m a : String) :
    check_3pid_allowed r ⟨⟨some L⟩⟩ m a = check_3pid_loop r m a L := by
  cases L with
  | nil => exact absurd rfl hL
  | cons c rest => rfl

/-- No constraint with the queried medium: the loop falls through to the
initial `allow = False`. -/
lemma check_3pid_loop_no_medium (r : String → String → Except ε Bool)
    (m a : String) (L : List Constraint) (h : ∀ c ∈ L, c.medium ≠ m) :
    check_3pid_loop r m a L = .ok false := by
  induction L with
  | nil => rfl
  | cons c rest ih =>
    have hm : ¬ m = c.medium := fun hm => h c (List.mem_cons_self _ _) hm.symm
    simp [check_3pid_loop, hm,
      ih (fun c' hc' => h c' (List.mem_cons_of_mem _ hc'))]

/-- C2: over a non-empty policy and a total prefix-match oracle `f` (standing
for `re.match` anchored at the start of the address), the check is allowed
iff some constraint has the queried medium and a matching pattern, and the
scan is decided by the first such constraint: the result over the full
sequence equals the result over the prefix ending at that constraint. -/
theorem check_3pid_allowed_first_match_decides (f : String → String → Bool)
    (L : List Constraint) (hL : L ≠ []) (m a : String) :
    (check_3pid_allowed (fun p s => (Except.ok (f p s) : Except ε Bool))
        ⟨⟨some L⟩⟩ m a = .ok true ↔
      ∃ c ∈ L, c.medium = m ∧ f c.pattern a = true) ∧
    (∀ L₁ c L₂, L = L₁ ++ c :: L₂ →
      (∀ c' ∈ L₁, ¬(c'.medium = m ∧ f c'.pattern a = true)) →
      c.medium = m → f c.pattern a = true →
      check_3pid_allowed (fun p s => (Except.ok (f p s) : Except ε Bool))
          ⟨⟨some L⟩⟩ m a =
        check_3pid_allowed (fun p s => (Except.ok (f p s) : Except ε Bool))
          ⟨⟨some (L₁ ++ [c])⟩⟩ m a) := by
  constructor
  · rw [check_3pid_allowed_of_ne_nil _ _ hL]
    exact check_3pid_loop_ok_true_iff f m a L
  · intro L₁ c L₂ hsplit hnomatch hcm hcf
    rw [check_3pid_allowed_of_ne_nil _ _ hL,
      check_3pid_allowed_of_ne_nil _ _ (by simp), hsplit,
      check_3pid_loop_append_no_match f m a L₁ _ hnomatch,
      check_3pid_loop_append_no_match f m a L₁ _ hnomatch]
    have hm : m = c.medium := hcm.symm
    simp [check_3pid_loop, hm, hcf]

/-- C2 witness: a two-constraint policy where the second constraint carries
the queried medium and a matching pattern; the scan over the full list
coincides with the scan over the prefix ending at that constraint. -/
theorem check_3pid_allowed_first_match_decides_witness :
    check_3pid_allowed (fun p _ => (Except.ok (p == "@a") : Except Unit Bool))
        ⟨⟨some [⟨"msisdn", "04"⟩, ⟨"email", "@a"⟩, ⟨"email", "zz"⟩]⟩⟩
        "email" "@abc" =
      check_3pid_allowed (fun p _ => (Except.ok (p == "@a") : Except Unit Bool))
        ⟨⟨some [⟨"msisdn", "04"⟩, ⟨"email", "@a"⟩]⟩⟩ "email" "@abc" :=
  (check_3pid_allowed_first_match_decides (fun p _ => p == "@a") _ (by decide)
      "email" "@abc").2
    [⟨"msisdn", "04"⟩] ⟨"email", "@a"⟩ [⟨"email", "zz"⟩] rfl (by decide)
    rfl (by decide)

/-- C3: an absent or empty policy always allows; a non-empty policy none of
whose constraints carries the queried medium always denies — for any matcher,
since no pattern is ever consulted. -/
theorem check_3pid_allowed_empty_and_no_medium
    (r : String → String → Except ε Bool) (m a : String) :
    check_3pid_allowed r ⟨⟨none⟩⟩ m a = .ok true ∧
    check_3pid_allowed r ⟨⟨some []⟩⟩ m a = .ok true ∧
    (∀ L, L ≠ [] → (∀ c ∈ L, c.medium ≠ m) →
      check_3pid_allowed r ⟨⟨some L⟩⟩ m a = .ok false) := by
  refine ⟨rfl, rfl, fun L hL h => ?_⟩
  rw [check_3pid_allowed_of_ne_nil _ _ hL]
  exact check_3pid_loop_no_medium r m a L h

/-- C3 witness: instantiated at a matcher that always raises, so the denial
on a medium-free policy visibly consults no pattern. -/
theorem check_3pid_allowed_empty_and_no_medium_witness :
    check_3pid_allowed (fun _ _ => (Except.error () : Except Unit Bool))
      ⟨⟨none⟩⟩ "email" "a@b" = .ok true ∧
    check_3pid_allowed (fun _ _ => (Except.error () : Except Unit Bool))
      ⟨⟨some [⟨"msisdn", "04"⟩]⟩⟩ "email" "a@b" = .ok false :=
  ⟨(check_3pid_allowed_empty_and_no_medium _ "email" "a@b").1,
   (check_3pid_allowed_empty_and_no_medium _ "email" "a@b").2.2
     [⟨"msisdn", "04"⟩] (by decide) (by decide)⟩

/-- C10: a pattern is consulted only under an equal medium, so (a) the
check's outcome — result and error behaviour alike — is unchanged when the
patterns of other-medium constraints change arbitrarily, and (b) when every
equal-medium pattern evaluates cleanly the check cannot raise, however
malformed the other-medium patterns are. -/
theorem check_3pid_allowed_ignores_other_medium_patterns
    (r₁ r₂ : String → String → Except ε Bool) (L : List Constraint)
    (m a : String) :
    ((∀ c ∈ L, c.medium = m → r₁ c.pattern a = r₂ c.pattern a) →
      check_3pid_allowed r₁ ⟨⟨some L⟩⟩ m a =
        check_3pid_allowed r₂ ⟨⟨some L⟩⟩ m a) ∧
    ((∀ c ∈ L, c.medium = m → ∃ b, r₁ c.pattern a = .ok b) →
      ∃ b, check_3pid_allowed r₁ ⟨⟨some L⟩⟩ m a = .ok b) := by
  cases L with
  | nil => exact ⟨fun _ => rfl, fun _ => ⟨true, rfl⟩⟩
  | cons c rest =>
    exact ⟨fun h => check_3pid_loop_congr r₁ r₂ m a (c :: rest) h,
      fun h => check_3pid_loop_total r₁ m a (c :: rest) h⟩

/-- C10 witness: a policy whose single constraint has a different medium and
an always-raising (malformed-pattern) matcher; the check behaves exactly as
with a clean matcher. -/
theorem check_3pid_allowed_ignores_other_medium_patterns_witness :
    check_3pid_allowed (fun _ _ => (Except.error () : Except Unit Bool))
        ⟨⟨some [⟨"msisdn", "04"⟩]⟩⟩ "email" "a@b" =
      check_3pid_allowed (fun _ _ => (Except.ok false : Except Unit Bool))
        ⟨⟨some [⟨"msisdn", "04"⟩]⟩⟩ "email" "a@b" :=
  (check_3pid_allowed_ignores_other_medium_patterns _ _ _ "email" "a@b").1
    (by
      intro c hc hcm
      rcases List.mem_singleton.1 hc with h
      subst h
      exact absurd hcm (by decide))

/-! ### Dict lemmas and the clamp's characterization -/

lemma dictGet?_dictSet_self (d : Entries) (k : String) (v : JVal) :
    dictGet? (dictSet d k v) k = some v := by
  induction d with
  | nil => simp [dictSet, dictGet?]
  | cons e rest ih =>
    by_cases hk : e.1 = k <;> simp [dictSet, dictGet?, hk, ih]

lemma dictGet?_dictSet_ne (d : Entries) (k : String) (v : JVal) (k' : String)
    (h : k' ≠ k) : dictGet? (dictSet d k v) k' = dictGet? d k' := by
  have h' : ¬ k = k' := fun he => h he.symm
  induction d with
  | nil => simp [dictSet, dictGet?, h']
  | cons e rest ih =>
    by_cases hk : e.1 = k
    · simp [dictSet, dictGet?, hk, h']
    · by_cases hk' : e.1 = k' <;> simp [dictSet, dictGet?, hk, hk', h, ih]

lemma dictSet_dictSet (d : Entries) (k : String) (v v' : JVal) :
    dictSet (dictSet d k v) k v' = dictSet d k v' := by
  induction d with
  | nil => simp [dictSet]
  | cons e rest ih =>
    by_cases hk : e.1 = k <;> simp [dictSet, hk, ih]

lemma dictSet_keys (d : Entries) (k : String) (v : JVal)
    (h : (dictGet? d k).isSome) :
    (dictSet d k v).map Prod.fst = d.map Prod.fst := by
  induction d with
  | nil => simp [dictGet?] at h
  | cons e rest ih =>
    by_cases hk : e.1 = k
    · simp [dictSet, hk]
    · have h' : (dictGet? rest k).isSome := by
        simpa [dictGet?, hk] using h
      simp [dictSet, hk, ih h']

/-- The nested path `room.timeline.limit` of the spec, read off a filter
structure: present exactly when `room` and `timeline` are present dicts and
`timeline` carries a `limit` entry. -/
def nestedTimelineLimit (fj : Entries) : Option JVal :=
  match dictGet? fj "room" with
  | some (.dict room) =>
    match dictGet? room "timeline" with
    | some (.dict tl) => dictGet? tl "limit"
    | _ => none
  | _ => none

/-- The spec's well-formedness premise on a filter structure: the
intermediate values `room` and `room.timeline`, when present, are mappings. -/
def roomTimelineWellFormed (fj : Entries) : Bool :=
  match dictGet? fj "room" with
  | none => true
  | some (.int _) => false
  | some (.dict room) =>
    match dictGet? room "timeline" with
    | none => true
    | some (.int _) => false
    | some (.dict _) => true

/-- Full characterization of the clamp for a non-negative limit, by the shape
of the filter structure along the path `room.timeline.limit`. -/
lemma set_timeline_upper_limit_eq (fj : Entries) (c : Int) (h : ¬ c < 0) :
    set_timeline_upper_limit fj c =
      match dictGet? fj "room" with
      | none => .ok fj
      | some (.int _) => .error ()
      | some (.dict room) =>
        match dictGet? room "timeline" with
        | none => .ok fj
        | some (.int _) => .error ()
        | some (.dict tl) =>
          match dictGet? tl "limit" with
          | none => .ok fj
          | some (.dict _) => .error ()
          | some (.int v) =>
            .ok (dictSet fj "room" (.dict (dictSet room "timeline"
              (.dict (dictSet tl "limit" (.int (min v c))))))) := by
  unfold set_timeline_upper_limit
  rw [if_neg h]
  cases hroom : dictGet? fj "room" with
  | none =>
    simp [pyDictGet, hroom, pyGetMethod, pyContains, dictGet?, Except.bind, Bind.bind]
  | some room =>
    cases room with
    | int n =>
      simp [pyDictGet, hroom, pyGetMethod, Except.bind, Bind.bind]
    | dict roomd =>
      cases htl : dictGet? roomd "timeline" with
      | none =>
        simp [pyDictGet, hroom, htl, pyGetMethod, pyContains, dictGet?,
          Except.bind, Bind.bind]
      | some tl =>
        cases tl with
        | int n =>
          simp [pyDictGet, hroom, htl, pyGetMethod, pyContains, Except.bind, Bind.bind]
        | dict tld =>
          cases hlim : dictGet? tld "limit" with
          | none =>
            simp [pyDictGet, hroom, htl, hlim, pyGetMethod, pyContains,
              Except.bind, Bind.bind]
          | some lim =>
            cases lim with
            | int v =>
              simp [pyDictGet, hroom, htl, hlim, pyGetMethod, pyContains,
                pySubscript, pyAssign, pyMin, Except.bind, Bind.bind]
            | dict limd =>
              simp [pyDictGet, hroom, htl, hlim, pyGetMethod, pyContains,
                pySubscript, pyAssign, pyMin, Except.bind, Bind.bind]

/-- C6: for a filter structure whose present intermediates are mappings and
an integer ceiling: a negative ceiling mutates nothing; with the path
`room.timeline.limit` present at value `v`, that entry becomes
`min v ceiling`; with the path absent nothing is mutated, no limit entry is
introduced and no error is raised. -/
theorem set_timeline_upper_limit_clamps (fj : Entries) (c : Int) :
    (c < 0 → set_timeline_upper_limit fj c = .ok fj) ∧
    (0 ≤ c → roomTimelineWellFormed fj = true → nestedTimelineLimit fj = none →
      set_timeline_upper_limit fj c = .ok fj) ∧
    (0 ≤ c → ∀ v : Int, nestedTimelineLimit fj = some (.int v) →
      ∃ fj', set_timeline_upper_limit fj c = .ok fj' ∧
        nestedTimelineLimit fj' = some (.int (min v c))) := by
  refine ⟨fun hneg => ?_, fun h0 hwf hnone => ?_, fun h0 v hv => ?_⟩
  · unfold set_timeline_upper_limit
    rw [if_pos hneg]
  · rw [set_timeline_upper_limit_eq fj c (not_lt.2 h0)]
    cases hroom : dictGet? fj "room" with
    | none => rfl
    | some room =>
      cases room with
      | int n => simp [roomTimelineWellFormed, hroom] at hwf
      | dict roomd =>
        cases htl : dictGet? roomd "timeline" with
        | none => simp [htl]
        | some tl =>
          cases tl with
          | int n => simp [roomTimelineWellFormed, hroom, htl] at hwf
          | dict tld =>
            have hlim : dictGet? tld "limit" = none := by
              simpa [nestedTimelineLimit, hroom, htl] using hnone
            simp [htl, hlim]
  · rw [set_timeline_upper_limit_eq fj c (not_lt.2 h0)]
    cases hroom : dictGet? fj "room" with
    | none => simp [nestedTimelineLimit, hroom] at hv
    | some room =>
      cases room with
      | int n => simp [nestedTimelineLimit, hroom] at hv
      | dict roomd =>
        cases htl : dictGet? roomd "timeline" with
        | none => simp [nestedTimelineLimit, hroom, htl] at hv
        | some tl =>
          cases tl with
          | int n => simp [nestedTimelineLimit, hroom, htl] at hv
          | dict tld =>
            have hlim : dictGet? tld "limit" = some (.int v) := by
              simpa [nestedTimelineLimit, hroom, htl] using hv
            refine ⟨dictSet fj "room" (.dict (dictSet roomd "timeline"
              (.dict (dictSet tld "limit" (.int (min v c)))))),
              by simp [htl, hlim], ?_⟩
            simp [nestedTimelineLimit, dictGet?_dictSet_self]

/-- C6 witness: a negative ceiling is a no-op, a structure lacking
`room.timeline.limit` is untouched, and a present limit of 10 is clamped to
a ceiling of 5. -/
theorem set_timeline_upper_limit_clamps_witness :
    set_timeline_upper_limit
        [("room", .dict [("timeline", .dict [("limit", .int 10)])])] (-1) =
      .ok [("room", .dict [("timeline", .dict [("limit", .int 10)])])] ∧
    set_timeline_upper_limit
        [("room", .dict [("timeline", .dict [("foo", .int 3)])])] 5 =
      .ok [("room", .dict [("timeline", .dict [("foo", .int 3)])])] ∧
    set_timeline_upper_limit
        [("room", .dict [("timeline", .dict [("limit", .int 10)])])] 5 =
      .ok [("room", .dict [("timeline", .dict [("limit", .int 5)])])] := by
  refine ⟨(set_timeline_upper_limit_clamps _ _).1 (by decide),
    (set_timeline_upper_limit_clamps _ _).2.1 (by decide) rfl rfl, ?_⟩
  obtain ⟨fj', hfj', hlim⟩ :=
    (set_timeline_upper_limit_clamps
      [("room", .dict [("timeline", .dict [("limit", .int 10)])])] 5).2.2
      (by decide) 10 rfl
  rw [hfj']
  rw [show fj' = [("room", JVal.dict [("timeline",
      JVal.dict [("limit", JVal.int 5)])])] from by
    have h10 : (10 : Int) ⊓ 5 = 5 := by decide
    exact Except.ok.inj (by rw [← hfj']; rfl)]

/-- C7: the clamp is idempotent for a non-negative ceiling — re-clamping the
outcome of a clamp with the same ceiling changes nothing (failures simply
propagate through the second application). -/
theorem set_timeline_upper_limit_idempotent (fj : Entries) (c : Int)
    (h : 0 ≤ c) :
    (set_timeline_upper_limit fj c).bind
        (fun fj' => set_timeline_upper_limit fj' c) =
      set_timeline_upper_limit fj c := by
  have hc : ¬ c < 0 := not_lt.2 h
  rw [set_timeline_upper_limit_eq fj c hc]
  cases hroom : dictGet? fj "room" with
  | none =>
    simp [Except.bind, set_timeline_upper_limit_eq fj c hc, hroom]
  | some room =>
    cases room with
    | int n => rfl
    | dict roomd =>
      cases htl : dictGet? roomd "timeline" with
      | none =>
        simp [Except.bind, htl, set_timeline_upper_limit_eq fj c hc, hroom]
      | some tl =>
        cases tl with
        | int n => simp [Except.bind, htl]
        | dict tld =>
          cases hlim : dictGet? tld "limit" with
          | none =>
            simp [Except.bind, htl, hlim, set_timeline_upper_limit_eq fj c hc,
              hroom]
          | some lim =>
            cases lim with
            | dict limd => simp [Except.bind, htl, hlim]
            | int v =>
              simp only [Except.bind, htl, hlim]
              rw [set_timeline_upper_limit_eq _ c hc]
              simp [dictGet?_dictSet_self, dictSet_dictSet, min_assoc]

/-- C7 witness: clamping twice with ceiling 5 equals clamping once. -/
theorem set_timeline_upper_limit_idempotent_witness :
    (set_timeline_upper_limit
        [("room", .dict [("timeline", .dict [("limit", .int 10)])])] 5).bind
      (fun fj' => set_timeline_upper_limit fj' 5) =
    set_timeline_upper_limit
      [("room", .dict [("timeline", .dict [("limit", .int 10)])])] 5 :=
  set_timeline_upper_limit_idempotent _ 5 (by decide)

/-- C9: when the clamp returns a structure, every key other than `room` is
untouched (values and key order alike); under a present `room` mapping,
every key other than `timeline` is untouched; under a present `timeline`
mapping, every key other than `limit` is untouched — the clamp modifies at
most the value at `room.timeline.limit`. -/
theorem set_timeline_upper_limit_frame (fj : Entries) (c : Int)
    (fj' : Entries) (h : set_timeline_upper_limit fj c = .ok fj') :
    (∀ k, k ≠ "room" → dictGet? fj' k = dictGet? fj k) ∧
    fj'.map Prod.fst = fj.map Prod.fst ∧
    (dictGet? fj "room" = none → fj' = fj) ∧
    (∀ room, dictGet? fj "room" = some (.dict room) →
      ∃ room', dictGet? fj' "room" = some (.dict room') ∧
        room'.map Prod.fst = room.map Prod.fst ∧
        (∀ k, k ≠ "timeline" → dictGet? room' k = dictGet? room k) ∧
        (∀ tl, dictGet? room "timeline" = some (.dict tl) →
          ∃ tl', dictGet? room' "timeline" = some (.dict tl') ∧
            tl'.map Prod.fst = tl.map Prod.fst ∧
            (∀ k, k ≠ "limit" → dictGet? tl' k = dictGet? tl k))) := by
  by_cases hc : c < 0
  · unfold set_timeline_upper_limit at h
    rw [if_pos hc] at h
    cases h
    exact ⟨fun _ _ => rfl, rfl, fun _ => rfl,
      fun room hroom => ⟨room, hroom, rfl, fun _ _ => rfl,
        fun tl htl => ⟨tl, htl, rfl, fun _ _ => rfl⟩⟩⟩
  · rw [set_timeline_upper_limit_eq fj c hc] at h
    cases hroom : dictGet? fj "room" with
    | none =>
      rw [hroom] at h
      simp only [] at h
      cases h
      exact ⟨fun _ _ => rfl, rfl, fun _ => rfl, fun room hr => nomatch hr⟩
    | some room =>
      rw [hroom] at h
      cases room with
      | int n => simp only [] at h; cases h
      | dict roomd =>
        simp only [] at h
        cases htl : dictGet? roomd "timeline" with
        | none =>
          rw [htl] at h
          simp only [] at h
          cases h
          refine ⟨fun _ _ => rfl, rfl, fun _ => rfl, fun room hr => ?_⟩
          cases hr
          exact ⟨roomd, hroom, rfl, fun _ _ => rfl,
            fun tl htl' => ⟨tl, htl', rfl, fun _ _ => rfl⟩⟩
        | some tl =>
          rw [htl] at h
          cases tl with
          | int n => simp only [] at h; cases h
          | dict tld =>
            simp only [] at h
            cases hlim : dictGet? tld "limit" with
            | none =>
              rw [hlim] at h
              simp only [] at h
              cases h
              refine ⟨fun _ _ => rfl, rfl, fun _ => rfl, fun room hr => ?_⟩
              cases hr
              exact ⟨roomd, hroom, rfl, fun _ _ => rfl,
                fun tl htl' => ⟨tl, htl', rfl, fun _ _ => rfl⟩⟩
            | some lim =>
              rw [hlim] at h
              cases lim with
              | dict limd => simp only [] at h; cases h
              | int v =>
                simp only [Except.ok.injEq] at h
                subst h
                refine ⟨fun k hk => dictGet?_dictSet_ne _ _ _ _ hk,
                  dictSet_keys _ _ _ (by simp [hroom]), ?_, ?_⟩
                · intro hnone; cases hnone
                · intro room hroomEq
                  cases hroomEq
                  refine ⟨_, dictGet?_dictSet_self _ _ _,
                    dictSet_keys _ _ _ (by simp [htl]),
                    fun k hk => dictGet?_dictSet_ne _ _ _ _ hk, ?_⟩
                  intro tl htlEq
                  rw [htl] at htlEq
                  cases htlEq
                  exact ⟨_, dictGet?_dictSet_self _ _ _,
                    dictSet_keys _ _ _ (by simp [hlim]),
                    fun k hk => dictGet?_dictSet_ne _ _ _ _ hk⟩

/-- C9 witness: clamping a structure with extra keys at every level leaves a
sibling top-level key untouched. -/
theorem set_timeline_upper_limit_frame_witness :
    dictGet?
        [("room", JVal.dict [("timeline",
            JVal.dict [("limit", JVal.int 5), ("keep", JVal.int 7)]),
          ("other", JVal.int 2)]), ("top", JVal.int 9)] "top" =
      dictGet?
        [("room", JVal.dict [("timeline",
            JVal.dict [("limit", JVal.int 10), ("keep", JVal.int 7)]),
          ("other", JVal.int 2)]), ("top", JVal.int 9)] "top" :=
  (set_timeline_upper_limit_frame
    [("room", .dict [("timeline",
        .dict [("limit", .int 10), ("keep", .int 7)]), ("other", .int 2)]),
      ("top", .int 9)] 5
    [("room", .dict [("timeline",
        .dict [("limit", .int 5), ("keep", .int 7)]), ("other", .int 2)]),
      ("top", .int 9)] rfl).1 "top" (by decide)

/-! ### String and decimal-formatting lemmas for the expander -/

/-- Substituting for the alpha segment of the base prefix keeps the fixed
stem and splices in the replacement. -/
lemma pyReplace_client_prefix (r : String) :
    pyReplace CLIENT_V2_ALPHA_PREFIX "/v2_alpha" r = "/_matrix/client" ++ r := by
  show String.mk _ = _
  rw [show ("/_matrix/client" ++ r) =
    String.mk ("/_matrix/client".data ++ r.data) from rfl]
  apply congrArg
  show '/' :: '_' :: 'm' :: 'a' :: 't' :: 'r' :: 'i' :: 'x' :: '/' :: 'c' ::
    'l' :: 'i' :: 'e' :: 'n' :: 't' ::
    (r.data ++ pyReplaceGo "/v2_alpha".data r.data 9 []) = _
  simp [pyReplaceGo]

lemma digitChar_toNat_of_lt (d : Nat) (h : d < 10) :
    (Nat.digitChar d).toNat = 48 + d := by
  interval_cases d <;> rfl

lemma decOfDigits_append (cs : List Char) (c : Char) :
    decOfDigits (cs ++ [c]) = decOfDigits cs * 10 + (c.toNat - 48) := by
  simp [decOfDigits, List.foldl_append]

lemma decOfDigits_decDigitsGo (fuel : Nat) :
    ∀ n, n ≤ fuel → decOfDigits (decDigitsGo fuel n) = n := by
  induction fuel with
  | zero =>
    intro n hn
    interval_cases n
    rfl
  | succ fuel ih =>
    intro n hn
    by_cases h0 : n = 0
    · subst h0; rfl
    · have hdiv : n / 10 ≤ fuel := by
        have := Nat.div_lt_self (Nat.pos_of_ne_zero h0) (by norm_num : 1 < 10)
        omega
      have hmod : n % 10 < 10 := Nat.mod_lt _ (by norm_num)
      calc decOfDigits (decDigitsGo (fuel + 1) n)
          = decOfDigits (decDigitsGo fuel (n / 10) ++ [Nat.digitChar (n % 10)]) := by
            rw [decDigitsGo, if_neg h0]
        _ = decOfDigits (decDigitsGo fuel (n / 10)) * 10 +
              ((Nat.digitChar (n % 10)).toNat - 48) := decOfDigits_append _ _
        _ = (n / 10) * 10 + (n % 10) := by
            rw [ih _ hdiv, digitChar_toNat_of_lt _ hmod]
            omega
        _ = n := by omega

/-- Python's decimal rendering of naturals is injective. -/
lemma pyFormatD_injective : Function.Injective pyFormatD := by
  intro m n h
  have hdata : (pyFormatD m).data = (pyFormatD n).data := congrArg _ h
  by_cases hm : m = 0 <;> by_cases hn : n = 0
  · omega
  · exfalso
    have hd : ("0" : String).data = (decDigitsGo n n) := by
      simpa [pyFormatD, hm, hn] using hdata
    have := congrArg decOfDigits hd
    rw [decOfDigits_decDigitsGo n n le_rfl] at this
    have h0 : decOfDigits ("0" : String).data = 0 := rfl
    omega
  · exfalso
    have hd : (decDigitsGo m m) = ("0" : String).data := by
      simpa [pyFormatD, hm, hn] using hdata
    have := congrArg decOfDigits hd
    rw [decOfDigits_decDigitsGo m m le_rfl] at this
    have h0 : decOfDigits ("0" : String).data = 0 := rfl
    omega
  · have hd : (decDigitsGo m m) = (decDigitsGo n n) := by
      simpa [pyFormatD, hm, hn] using hdata
    have := congrArg decOfDigits hd
    rwa [decOfDigits_decDigitsGo m m le_rfl,
      decOfDigits_decDigitsGo n n le_rfl] at this

lemma string_append_cancel_left {a b c : String} (h : a ++ b = a ++ c) :
    b = c := by
  apply String.ext
  have := congrArg String.data h
  rw [String.data_append, String.data_append] at this
  exact List.append_cancel_left this

lemma string_append_cancel_right {a b c : String} (h : a ++ c = b ++ c) :
    a = b := by
  apply String.ext
  have := congrArg String.data h
  rw [String.data_append, String.data_append] at this
  exact List.append_cancel_right this

lemma unstable_prefix_eq : unstable_prefix = "/_matrix/client" ++ "/unstable" :=
  pyReplace_client_prefix "/unstable"

lemma release_prefix_eq (n : Nat) :
    release_prefix n = "/_matrix/client" ++ ("/r" ++ pyFormatD n) :=
  pyReplace_client_prefix _

lemma alpha_prefix_eq : CLIENT_V2_ALPHA_PREFIX = "/_matrix/client" ++ "/v2_alpha" :=
  rfl

lemma alpha_ne_unstable : CLIENT_V2_ALPHA_PREFIX ≠ unstable_prefix := by
  rw [unstable_prefix_eq]
  decide

lemma alpha_ne_release (n : Nat) : CLIENT_V2_ALPHA_PREFIX ≠ release_prefix n := by
  rw [alpha_prefix_eq, release_prefix_eq]
  intro h
  have h2 := string_append_cancel_left h
  have h3 := congrArg (fun s : String => s.data.get? 1) h2
  have hl : ("/v2_alpha" : String).data.get? 1 = some 'v' := rfl
  have hr : ("/r" ++ pyFormatD n).data.get? 1 = some 'r' := rfl
  simp only [hl, hr] at h3
  cases h3

lemma unstable_ne_release (n : Nat) : unstable_prefix ≠ release_prefix n := by
  rw [unstable_prefix_eq, release_prefix_eq]
  intro h
  have h2 := string_append_cancel_left h
  have h3 := congrArg (fun s : String => s.data.get? 1) h2
  have hl : ("/unstable" : String).data.get? 1 = some 'u' := rfl
  have hr : ("/r" ++ pyFormatD n).data.get? 1 = some 'r' := rfl
  simp only [hl, hr] at h3
  cases h3

lemma release_prefix_injective : Function.Injective release_prefix := by
  intro m n h
  rw [release_prefix_eq, release_prefix_eq] at h
  exact pyFormatD_injective
    (string_append_cancel_left (string_append_cancel_left h))

lemma pattern_ne_of_prefix_ne {q₁ q₂ : String} (p : String) (h : q₁ ≠ q₂) :
    "^" ++ q₁ ++ p ≠ "^" ++ q₂ ++ p := fun hEq =>
  h (string_append_cancel_left (string_append_cancel_right hEq))

lemma foldl_append_singleton (g : Nat → String) : ∀ (R : List Nat)
    (init : List String),
    R.foldl (fun ps r => ps ++ [g r]) init = init ++ R.map g := by
  intro R
  induction R with
  | nil => intro init; simp
  | cons r R ih => intro init; simp [List.foldl, ih]

/-- The `patterns` list that `client_v2_patterns` accumulates, in closed
form: alpha matcher, then unstable matcher, then one matcher per release in
the caller-given order. -/
lemma client_v2_patterns_eq (p : String) (R : List Nat) (a u : Bool) :
    client_v2_patterns p R a u =
      (if a then ["^" ++ CLIENT_V2_ALPHA_PREFIX ++ p] else []) ++
      (if u then ["^" ++ unstable_prefix ++ p] else []) ++
      R.map (fun n => "^" ++ release_prefix n ++ p) := by
  cases a <;> cases u <;>
    simp [client_v2_patterns, foldl_append_singleton, List.append_assoc]

/-- C4: the expander yields exactly
`(alpha ? 1 : 0) + (unstable ? 1 : 0) + |releases|` compiled matchers, in
the order alpha, unstable, then the releases in caller order, and every
pattern string begins with the `^` start-of-string anchor. -/
theorem client_v2_patterns_shape (p : String) (R : List Nat) (a u : Bool) :
    client_v2_patterns p R a u =
      (if a then ["^" ++ CLIENT_V2_ALPHA_PREFIX ++ p] else []) ++
      (if u then ["^" ++ unstable_prefix ++ p] else []) ++
      R.map (fun n => "^" ++ release_prefix n ++ p) ∧
    (client_v2_patterns p R a u).length =
      (if a then 1 else 0) + (if u then 1 else 0) + R.length ∧
    (∀ s ∈ client_v2_patterns p R a u, s.data.head? = some '^') := by
  refine ⟨client_v2_patterns_eq p R a u, ?_, ?_⟩
  · rw [client_v2_patterns_eq]
    cases a <;> cases u <;> simp <;> omega
  · intro s hs
    rw [client_v2_patterns_eq] at hs
    rcases List.mem_append.1 hs with hs' | hs'
    · rcases List.mem_append.1 hs' with h1 | h1
      · cases a with
        | false => simp at h1
        | true =>
          have : s = "^" ++ CLIENT_V2_ALPHA_PREFIX ++ p := by simpa using h1
          subst this
          rfl
      · cases u with
        | false => simp at h1
        | true =>
          have : s = "^" ++ unstable_prefix ++ p := by simpa using h1
          subst this
          rfl
    · obtain ⟨n, _, hEq⟩ := List.mem_map.1 hs'
      subst hEq
      rfl

/-- C4 witness: the alpha matcher sits in the expansion of `"/foo"` with one
release and both flags, and starts with the anchor. -/
theorem client_v2_patterns_shape_witness :
    ("^" ++ CLIENT_V2_ALPHA_PREFIX ++ "/foo").data.head? = some '^' :=
  (client_v2_patterns_shape "/foo" [0] true true).2.2
    ("^" ++ CLIENT_V2_ALPHA_PREFIX ++ "/foo") (by decide)

/-- The unstable matcher as the specification sentence words it literally:
the base prefix with its alpha segment `"/v2_alpha"` substituted by the
literal `"unstable"` (no leading slash), followed by the template. -/
def unstablePatternPerSpec (p : String) : String :=
  "^" ++ pyReplace CLIENT_V2_ALPHA_PREFIX "/v2_alpha" "unstable" ++ p

/-- C5 counterexample: at template `"/foo"` the code's only unstable matcher
is `^/_matrix/client/unstable/foo`, while substituting the alpha segment
`"/v2_alpha"` by the literal `"unstable"` gives the different string
`^/_matrix/clientunstable/foo` — the substituted text needs its leading
slash. -/
theorem client_v2_patterns_unstable_counterexample :
    client_v2_patterns "/foo" [] false true = ["^/_matrix/client/unstable/foo"] ∧
    unstablePatternPerSpec "/foo" = "^/_matrix/clientunstable/foo" ∧
    ("^/_matrix/client/unstable/foo" : String) ≠ "^/_matrix/clientunstable/foo" := by
  refine ⟨by decide, by decide, by decide⟩

/-- C5 (amended: the unstable substitution is the literal `"/unstable"`,
with the leading slash): the alpha matcher is anchor + base prefix +
template; the unstable matcher substitutes `"/unstable"` for the alpha
segment of the base prefix; each release `n` substitutes `"/r<n>"`. -/
theorem client_v2_patterns_substitution (p : String) (n : Nat) :
    client_v2_patterns p [n] true true =
      ["^" ++ ("/_matrix/client" ++ "/v2_alpha") ++ p,
       "^" ++ ("/_matrix/client" ++ "/unstable") ++ p,
       "^" ++ ("/_matrix/client" ++ ("/r" ++ pyFormatD n)) ++ p] := by
  rw [client_v2_patterns_eq, ← alpha_prefix_eq, ← unstable_prefix_eq,
    ← release_prefix_eq]
  simp

/-- C8: the expander is deterministic (a pure function of its arguments),
and distinct prefix inputs — alpha, unstable, and distinct release
numbers — give pairwise distinct prefixes, hence pairwise distinct
matchers. -/
theorem client_v2_patterns_distinct (p : String) (m n : Nat) (h : m ≠ n) :
    client_v2_patterns p [m, n] true true =
      client_v2_patterns p [m, n] true true ∧
    CLIENT_V2_ALPHA_PREFIX ≠ unstable_prefix ∧
    CLIENT_V2_ALPHA_PREFIX ≠ release_prefix n ∧
    unstable_prefix ≠ release_prefix n ∧
    release_prefix m ≠ release_prefix n ∧
    ("^" ++ CLIENT_V2_ALPHA_PREFIX ++ p) ≠ ("^" ++ unstable_prefix ++ p) ∧
    ("^" ++ CLIENT_V2_ALPHA_PREFIX ++ p) ≠ ("^" ++ release_prefix n ++ p) ∧
    ("^" ++ unstable_prefix ++ p) ≠ ("^" ++ release_prefix n ++ p) ∧
    ("^" ++ release_prefix m ++ p) ≠ ("^" ++ release_prefix n ++ p) := by
  have hrel : release_prefix m ≠ release_prefix n :=
    fun hEq => h (release_prefix_injective hEq)
  exact ⟨rfl, alpha_ne_unstable, alpha_ne_release n, unstable_ne_release n,
    hrel, pattern_ne_of_prefix_ne p alpha_ne_unstable,
    pattern_ne_of_prefix_ne p (alpha_ne_release n),
    pattern_ne_of_prefix_ne p (unstable_ne_release n),
    pattern_ne_of_prefix_ne p hrel⟩

/-- C8 witness: releases 1 and 2 give distinct matchers for template
`"/x"`. -/
theorem client_v2_patterns_distinct_witness :
    ("^" ++ release_prefix 1 ++ "/x") ≠ ("^" ++ release_prefix 2 ++ "/x") :=
  (client_v2_patterns_distinct "/x" 1 2 (by decide)).2.2.2.2.2.2.2.2
